/-
Verification of the GenericReaderPlugin core (openfx-io, src/IOSupport/GenericReader.h):
the time-to-frame resolution engine and the pixel transfer pipeline.

The repository ships only the header (declarations); the implementation bodies of
`getSequenceTime`, `getFilenameAtSequenceTime`, `getSequenceTimeDomainInternal` and the
pixel-pipeline member functions are not under src/.  Those operations are therefore
modelled from the specification (spec.md §4.1-§4.6), keeping the header's enumeration
names and parameter shapes.  Times and frame indices are integers (spec §4.2: sequence
time is truncated to the nearest integer frame index); pixel values are rationals, the
exact idealisation of the float arithmetic the pipeline performs.
-/
import Mathlib

namespace GenericReader

/-! ## Time classification (FrameTimeMapper, §4.2) -/

/-- What to do before the first frame / after the last frame
(`_beforeFirst` / `_afterLast` choice params: hold, black, error). -/
inductive BeforeAfterAction
  | hold
  | black
  | error
  deriving DecidableEq, Repr

/-- Frame mode (`_frameMode` choice param): time offset or absolute starting frame. -/
inductive FrameModeEnum
  | eFrameModeTimeOffset
  | eFrameModeStartingFrame
  deriving DecidableEq, Repr

/-- Return code of `GenericReaderPlugin::getSequenceTime` (GenericReader.h:197-203). -/
inductive GetSequenceTimeRetEnum
  | eGetSequenceTimeWithinSequence
  | eGetSequenceTimeBeforeSequence
  | eGetSequenceTimeAfterSequence
  | eGetSequenceTimeBlack
  | eGetSequenceTimeError
  deriving DecidableEq, Repr

open GetSequenceTimeRetEnum BeforeAfterAction

/-- Modelled from the spec: §4.2 step 1 of `GenericReaderPlugin::getSequenceTime`
(body not under src/).  `TimeOffset` subtracts the configured offset from the render
time; `AbsoluteStart` rebases the render time so that `startingTime` maps to
`firstFrame`. -/
def mapToSequenceTime (mode : FrameModeEnum) (timeOffsetVal startingTime firstFrame t : Int) :
    Int :=
  match mode with
  | .eFrameModeTimeOffset => t - timeOffsetVal
  | .eFrameModeStartingFrame => t - startingTime + firstFrame

/-- Result of `getSequenceTime`: the return code together with the resolved
sequence time written through the `double *sequenceTime` out-parameter. -/
structure SequenceTimeResult where
  ret : GetSequenceTimeRetEnum
  sequenceTime : Int
  deriving DecidableEq, Repr

/-- Modelled from the spec: §4.2 step 2 of `GenericReaderPlugin::getSequenceTime`
(GenericReader.h:209, body not under src/).  Classify the mapped sequence time against
`[firstFrame, lastFrame]`: within range returns `WithinSequence(sequenceTime)`;
below the range applies `beforeFirstAction` (hold returns `BeforeSequence(firstFrame)`,
black returns `Black`, error returns `Error`); above the range mirrors with
`afterLastAction` against `AfterSequence(lastFrame)`. -/
def getSequenceTime (firstFrame lastFrame : Int) (beforeFirst afterLast : BeforeAfterAction)
    (mode : FrameModeEnum) (timeOffsetVal startingTime t : Int) : SequenceTimeResult :=
  let s := mapToSequenceTime mode timeOffsetVal startingTime firstFrame t
  if s < firstFrame then
    match beforeFirst with
    | .hold => ⟨eGetSequenceTimeBeforeSequence, firstFrame⟩
    | .black => ⟨eGetSequenceTimeBlack, s⟩
    | .error => ⟨eGetSequenceTimeError, s⟩
  else if lastFrame < s then
    match afterLast with
    | .hold => ⟨eGetSequenceTimeAfterSequence, lastFrame⟩
    | .black => ⟨eGetSequenceTimeBlack, s⟩
    | .error => ⟨eGetSequenceTimeError, s⟩
  else
    ⟨eGetSequenceTimeWithinSequence, s⟩

/-! ## Sequence time domain discovery (§4.1) -/

/-- State consumed by `getSequenceTimeDomainInternal`: the range a filesystem scan of
the selected sequence would discover, the cached `_originalFrameRange` param
(GenericReader.h:304), and a counter of filesystem scans performed (to express
"does not re-scan"). -/
structure TimeDomainState where
  fsRange : Int × Int
  originalFrameRange : Option (Int × Int)
  scanCount : Nat
  deriving DecidableEq, Repr

/-- Modelled from the spec: §4.1 `discover` / `GenericReaderPlugin::getSequenceTimeDomainInternal`
(GenericReader.h:184, body not under src/).  If the cached original frame range is
already set, return it without re-scanning the filesystem.  Otherwise scan the
filesystem; a call with `canSetOriginalFrameRange = false` must not write the cached
range, while a persistent call sets it (the first such call only, since afterwards the
cached branch is taken). -/
def getSequenceTimeDomainInternal (st : TimeDomainState) (canSetOriginalFrameRange : Bool) :
    (Int × Int) × TimeDomainState :=
  match st.originalFrameRange with
  | some r => (r, st)
  | none =>
    let r := st.fsRange
    let scanned : TimeDomainState := { st with scanCount := st.scanCount + 1 }
    if canSetOriginalFrameRange then
      (r, { scanned with originalFrameRange := some r })
    else
      (r, scanned)

/-! ## Filename resolution (FilenameResolver, §4.3) -/

/-- Missing-frame policy (`_missingFrameParam`, GenericReader.h:124; spec §6:
error, black, hold-nearest-available). -/
inductive MissingFrameEnum
  | eMissingFrameError
  | eMissingFrameBlack
  | eMissingFrameNearest
  deriving DecidableEq, Repr

/-- Return code of `GenericReaderPlugin::getFilenameAtSequenceTime`
(GenericReader.h:211-216). -/
inductive GetFilenameRetCodeEnum
  | eGetFileNameFailed
  | eGetFileNameReturnedFullRes
  | eGetFileNameReturnedProxy
  | eGetFileNameBlack
  deriving DecidableEq, Repr

open MissingFrameEnum GetFilenameRetCodeEnum

/-- The per-view file mapping `_sequenceFromFiles` (GenericReader.h:314) restricted to
one view: an association list from frame index to absolute path. -/
def lookupFrame (files : List (Int × String)) (i : Int) : Option String :=
  (files.find? (fun p => p.1 == i)).map Prod.snd

/-- Frame indices inside `[firstFrame, lastFrame]` for which a file exists. -/
def existingFramesIn (files : List (Int × String)) (firstFrame lastFrame : Int) : List Int :=
  (files.map Prod.fst).filter (fun i => decide (firstFrame ≤ i) && decide (i ≤ lastFrame))

/-- `i` is a strictly better hold-nearest candidate than `j` for target time `t`:
strictly closer, or equally close and earlier (the documented tie-break prefers the
earlier frame, spec §9). -/
def betterCandidate (t i j : Int) : Bool :=
  decide (|i - t| < |j - t|) || (decide (|i - t| = |j - t|) && decide (i < j))

/-- One step of the hold-nearest scan: keep the better of the current candidate and
the next existing frame. -/
def nearestStep (t : Int) (acc : Option Int) (i : Int) : Option Int :=
  match acc with
  | none => some i
  | some j => if betterCandidate t i j then some i else some j

/-- Modelled from the spec: the hold-nearest-available scan of §4.3 (body of
`getFilenameAtSequenceTime` not under src/): the existing frame index within
`[firstFrame, lastFrame]` nearest to `t`, the earlier frame preferred on ties. -/
def nearestFrame (files : List (Int × String)) (firstFrame lastFrame t : Int) : Option Int :=
  (existingFramesIn files firstFrame lastFrame).foldl (nearestStep t) none

/-- Resolve a frame index known to be present: substitute the proxy path when proxy
files are requested and a proxy mapping exists at that index, else the full-res path. -/
def resolveAtFrame (files proxyFiles : List (Int × String)) (useProxy : Bool) (i : Int) :
    GetFilenameRetCodeEnum × Option String :=
  match lookupFrame files i with
  | none => (eGetFileNameFailed, none)
  | some fn =>
    if useProxy then
      match lookupFrame proxyFiles i with
      | some pfn => (eGetFileNameReturnedProxy, some pfn)
      | none => (eGetFileNameReturnedFullRes, some fn)
    else
      (eGetFileNameReturnedFullRes, some fn)

/-- Modelled from the spec: §4.3 `resolve` / `GenericReaderPlugin::getFilenameAtSequenceTime`
(GenericReader.h:221, body not under src/).  Look up the filename at the exact integer
sequence time; when found, resolve it (with proxy substitution).  When no file exists
at that exact time, apply the missing-frame policy: error fails, black signals a black
fill, hold-nearest-available resolves the nearest existing frame index within
`[firstFrame, lastFrame]` instead (failing when the sequence holds no frame there). -/
def getFilenameAtSequenceTime (files proxyFiles : List (Int × String)) (useProxy : Bool)
    (missing : MissingFrameEnum) (firstFrame lastFrame t : Int) :
    GetFilenameRetCodeEnum × Option String :=
  match lookupFrame files t with
  | some _ => resolveAtFrame files proxyFiles useProxy t
  | none =>
    match missing with
    | eMissingFrameError => (eGetFileNameFailed, none)
    | eMissingFrameBlack => (eGetFileNameBlack, none)
    | eMissingFrameNearest =>
      match nearestFrame files firstFrame lastFrame t with
      | none => (eGetFileNameFailed, none)
      | some i => resolveAtFrame files proxyFiles useProxy i

/-! ## Pixel transfer pipeline (PixelTransferPipeline, §4.6)

The member functions `copyPixelData`, `scalePixelData`, `fillWithBlack`,
`premultPixelData` and `unPremultPixelData` are declared in GenericReader.h:228-284;
their bodies are not under src/ and are modelled from spec §4.6.  A pixel buffer is
idealised as a total function from integer coordinates and component to a rational
value; the render window gates every read and write, which makes the borrowed-bounds
discipline of the C buffers (never touching memory outside the window) expressible as
extensional facts. -/

/-- A single pixel component (channel). -/
inductive PixComp
  | compR
  | compG
  | compB
  | compA
  deriving DecidableEq, Repr

/-- Component layouts supported by the plugin (`supportsRGBA/RGB/Alpha`,
GenericReader.h:63). -/
inductive PixelComponentEnum
  | ePixelComponentRGBA
  | ePixelComponentRGB
  | ePixelComponentAlpha
  deriving DecidableEq, Repr

/-- Which channels a component layout carries. -/
def PixelComponentEnum.hasComp : PixelComponentEnum → PixComp → Bool
  | .ePixelComponentRGBA, _ => true
  | .ePixelComponentRGB, .compA => false
  | .ePixelComponentRGB, _ => true
  | .ePixelComponentAlpha, .compA => true
  | .ePixelComponentAlpha, _ => false

/-- Pixel bit depths handled by the pipeline. -/
inductive BitDepthEnum
  | eBitDepthUByte
  | eBitDepthUShort
  | eBitDepthFloat
  deriving DecidableEq, Repr

/-- Maximum representable value of a depth (the float depth is normalised to 1). -/
def depthMax : BitDepthEnum → ℚ
  | .eBitDepthUByte => 255
  | .eBitDepthUShort => 65535
  | .eBitDepthFloat => 1

/-- An `OfxRectI` rectangle, lower bounds inclusive and upper bounds exclusive. -/
structure RectI where
  x1 : Int
  y1 : Int
  x2 : Int
  y2 : Int
  deriving DecidableEq, Repr

/-- Decidable membership of a coordinate in a rectangle. -/
def RectI.containsB (r : RectI) (x y : Int) : Bool :=
  decide (r.x1 ≤ x) && decide (x < r.x2) && decide (r.y1 ≤ y) && decide (y < r.y2)

/-- A rectangle holding at least one pixel. -/
def RectI.nonEmpty (r : RectI) : Prop := r.x1 < r.x2 ∧ r.y1 < r.y2

instance (r : RectI) : Decidable r.nonEmpty :=
  inferInstanceAs (Decidable (r.x1 < r.x2 ∧ r.y1 < r.y2))

/-- A pixel buffer view: the value of each component at each coordinate. -/
def Image := Int → Int → PixComp → ℚ

/-- Normalise a stored value of a given depth into `[0, 1]`. -/
def fromDepth (d : BitDepthEnum) (v : ℚ) : ℚ := v / depthMax d

/-- Denormalise a `[0, 1]` value into a given depth. -/
def toDepth (d : BitDepthEnum) (v : ℚ) : ℚ := v * depthMax d

/-- Depth conversion of one stored value: normalise at the source depth, denormalise
at the destination depth. -/
def convertValue (srcDepth dstDepth : BitDepthEnum) (v : ℚ) : ℚ :=
  toDepth dstDepth (fromDepth srcDepth v)

/-- Per-pixel component conversion of the copy operation: a mapped component is depth
converted; an unmapped destination component is filled with the maximum value for
alpha (opaque) and 0 (black) for a color channel. -/
def copyPixel (srcComps : PixelComponentEnum) (srcDepth : BitDepthEnum)
    (dstDepth : BitDepthEnum) (srcPix : PixComp → ℚ) (c : PixComp) : ℚ :=
  if srcComps.hasComp c then convertValue srcDepth dstDepth (srcPix c)
  else if c = .compA then depthMax dstDepth else 0

/-- Modelled from the spec: §4.6 `copy` / `GenericReaderPlugin::copyPixelData`
(GenericReader.h:228, body not under src/).  Per-pixel over the render window,
converting the source layout and depth into the destination's. -/
def copyPixelData (renderWindow : RectI) (srcComps : PixelComponentEnum)
    (srcDepth : BitDepthEnum) (src : Image) (dstComps : PixelComponentEnum)
    (dstDepth : BitDepthEnum) (dst : Image) : Image :=
  fun x y c =>
    if renderWindow.containsB x y && dstComps.hasComp c then
      copyPixel srcComps srcDepth dstDepth (src x y) c
    else dst x y c

/-- Modelled from the spec: §4.6 `fillBlack` / `GenericReaderPlugin::fillWithBlack`
(GenericReader.h:254, body not under src/).  Sets color channels to 0 and, when the
destination carries an alpha channel, alpha to 0 (fully transparent). -/
def fillWithBlack (renderWindow : RectI) (dstComps : PixelComponentEnum) (dst : Image) :
    Image :=
  fun x y c =>
    if renderWindow.containsB x y && dstComps.hasComp c then 0 else dst x y c

/-- Modelled from the spec: §4.6 `premultiply` / `GenericReaderPlugin::premultPixelData`
(GenericReader.h:262, body not under src/).  Multiplies each color channel by the
pixel's alpha; alpha itself is copied. -/
def premultPixelData (renderWindow : RectI) (src : Image) (dstComps : PixelComponentEnum)
    (dst : Image) : Image :=
  fun x y c =>
    if renderWindow.containsB x y && dstComps.hasComp c then
      if c = .compA then src x y .compA else src x y c * src x y .compA
    else dst x y c

/-- Modelled from the spec: §4.6 `unpremultiply` / `GenericReaderPlugin::unPremultPixelData`
(GenericReader.h:274, body not under src/).  Divides each color channel by the pixel's
alpha; division by zero alpha leaves color channels at zero by convention; alpha
itself is copied. -/
def unPremultPixelData (renderWindow : RectI) (src : Image) (dstComps : PixelComponentEnum)
    (dst : Image) : Image :=
  fun x y c =>
    if renderWindow.containsB x y && dstComps.hasComp c then
      if c = .compA then src x y .compA
      else if src x y .compA = 0 then 0 else src x y c / src x y .compA
    else dst x y c

/-- Halve a rectangle for the next mip level (floor on lower bounds, so that a pixel
`x` of the halved rectangle covers sources `2x` and `2x+1`). -/
def halveRect (r : RectI) : RectI :=
  ⟨r.x1 / 2, r.y1 / 2, (r.x2 + 1) / 2, (r.y2 + 1) / 2⟩

/-- The 2x2 source block of a downsampled pixel, clipped to the source rectangle
(full 2x2 in the interior, 2x1 / 1x2 / 1x1 at odd boundaries). -/
def boxSamples (r : RectI) (x y : Int) : List (Int × Int) :=
  [(2 * x, 2 * y), (2 * x + 1, 2 * y), (2 * x, 2 * y + 1), (2 * x + 1, 2 * y + 1)].filter
    (fun p => r.containsB p.1 p.2)

/-- One 2x box-filter downsample step: each destination pixel is the average of its
clipped 2x2 source block. -/
def boxDown (src : Image) (r : RectI) : Image :=
  fun x y c =>
    let s := boxSamples r x y
    if s.length = 0 then 0
    else (s.map (fun p => src p.1 p.2 c)).sum / (s.length : ℚ)

/-- The render window of the n-th mip level: the original window halved n times. -/
def mipRect (r : RectI) : Nat → RectI
  | 0 => r
  | n + 1 => halveRect (mipRect r n)

/-- The image of the n-th mip level: n successive box-filter downsamples, each level
reading the previous one inside the previous level's window. -/
def mipImage (src : Image) (r : RectI) : Nat → Image
  | 0 => src
  | n + 1 => boxDown (mipImage src r n) (mipRect r n)

/-- Modelled from the spec: §4.6 `scale` / `GenericReaderPlugin::scalePixelData`
(GenericReader.h:240, body not under src/).  Performs `levels` successive 2x
box-filter downsamples of the source inside the original render window and writes the
final level into the destination over the final level's window (the original render
window halved `levels` times, which is the `renderWindow` argument the caller passes
alongside `originalRenderWindow`). -/
def scalePixelData (originalRenderWindow : RectI) (levels : Nat) (src : Image)
    (dstComps : PixelComponentEnum) (dst : Image) : Image :=
  fun x y c =>
    if (mipRect originalRenderWindow levels).containsB x y && dstComps.hasComp c then
      mipImage src originalRenderWindow levels x y c
    else dst x y c

/-- Record of one invocation of the pure-virtual decode hook
(GenericReader.h:172): the depth of the buffer handed to the per-format decoder. -/
structure DecodeInvocation where
  depth : BitDepthEnum
  window : RectI
  deriving DecidableEq, Repr

/-- Modelled from the spec: §2 control flow of `GenericReaderPlugin::render`
(GenericReader.h:71, body not under src/), specialised to the decode-then-convert
tail: the decoder hook fills a temporary buffer whose element type is `float`
(`decode`'s `float *pixelData` parameter, GenericReader.h:172), then `copyPixelData`
converts to the host's requested components and depth.  Returns the final buffer
together with the record of the decode invocation. -/
def renderDecodeStep (decoder : RectI → Image) (fileComps : PixelComponentEnum)
    (renderWindow : RectI) (hostComps : PixelComponentEnum) (hostDepth : BitDepthEnum)
    (dst : Image) : Image × DecodeInvocation :=
  let decoded := decoder renderWindow
  (copyPixelData renderWindow fileComps .eBitDepthFloat decoded hostComps hostDepth dst,
   ⟨.eBitDepthFloat, renderWindow⟩)

end GenericReader

namespace GenericReader

open GetSequenceTimeRetEnum BeforeAfterAction MissingFrameEnum GetFilenameRetCodeEnum
open PixComp PixelComponentEnum BitDepthEnum

/-- C1: for every sequence time strictly inside `[firstFrame, lastFrame]`,
`getSequenceTime` returns the within-sequence outcome carrying that same sequence
time, whatever the before/after policies are (so neither policy is applied). -/
theorem c1_within_sequence_identity (firstFrame lastFrame : Int)
    (beforeFirst afterLast : BeforeAfterAction) (mode : FrameModeEnum)
    (timeOffsetVal startingTime t : Int)
    (hlo : firstFrame < mapToSequenceTime mode timeOffsetVal startingTime firstFrame t)
    (hhi : mapToSequenceTime mode timeOffsetVal startingTime firstFrame t < lastFrame) :
    getSequenceTime firstFrame lastFrame beforeFirst afterLast mode timeOffsetVal startingTime t
      = ⟨eGetSequenceTimeWithinSequence,
         mapToSequenceTime mode timeOffsetVal startingTime firstFrame t⟩ := by
  unfold getSequenceTime
  have h1 : ¬ (mapToSequenceTime mode timeOffsetVal startingTime firstFrame t < firstFrame) := by
    omega
  have h2 : ¬ (lastFrame < mapToSequenceTime mode timeOffsetVal startingTime firstFrame t) := by
    omega
  simp [h1, h2]

/-- Witness for C1 at a concrete input: frames 10..20, render time 15, no offset. -/
theorem c1_within_sequence_identity_witness :
    getSequenceTime 10 20 .black .error .eFrameModeTimeOffset 0 0 15
      = ⟨eGetSequenceTimeWithinSequence, 15⟩ :=
  c1_within_sequence_identity 10 20 .black .error .eFrameModeTimeOffset 0 0 15
    (by decide) (by decide)

/-- C2: below the range the outcome is decided by `beforeFirstAction` (hold yields the
before-sequence outcome resolved at `firstFrame`, black yields `Black`, error yields
`Error`), and symmetrically above the range by `afterLastAction` resolved at
`lastFrame`. -/
theorem c2_before_after_policies (firstFrame lastFrame : Int) (mode : FrameModeEnum)
    (timeOffsetVal startingTime t : Int) (afterLast beforeFirst : BeforeAfterAction) :
    (mapToSequenceTime mode timeOffsetVal startingTime firstFrame t < firstFrame →
      (getSequenceTime firstFrame lastFrame .hold afterLast mode timeOffsetVal startingTime t
        = ⟨eGetSequenceTimeBeforeSequence, firstFrame⟩)
      ∧ (getSequenceTime firstFrame lastFrame .black afterLast mode timeOffsetVal startingTime t).ret
        = eGetSequenceTimeBlack
      ∧ (getSequenceTime firstFrame lastFrame .error afterLast mode timeOffsetVal startingTime t).ret
        = eGetSequenceTimeError)
    ∧ (lastFrame < mapToSequenceTime mode timeOffsetVal startingTime firstFrame t →
        firstFrame ≤ lastFrame →
      (getSequenceTime firstFrame lastFrame beforeFirst .hold mode timeOffsetVal startingTime t
        = ⟨eGetSequenceTimeAfterSequence, lastFrame⟩)
      ∧ (getSequenceTime firstFrame lastFrame beforeFirst .black mode timeOffsetVal startingTime t).ret
        = eGetSequenceTimeBlack
      ∧ (getSequenceTime firstFrame lastFrame beforeFirst .error mode timeOffsetVal startingTime t).ret
        = eGetSequenceTimeError) := by
  constructor
  · intro hlt
    refine ⟨?_, ?_, ?_⟩ <;> simp [getSequenceTime, hlt]
  · intro hgt hle
    have h1 : ¬ (mapToSequenceTime mode timeOffsetVal startingTime firstFrame t < firstFrame) := by
      omega
    refine ⟨?_, ?_, ?_⟩ <;> simp [getSequenceTime, h1, hgt]

/-- Witness for C2 at concrete inputs: frames 10..20, render times 5 and 25. -/
theorem c2_before_after_policies_witness :
    (getSequenceTime 10 20 .hold .hold .eFrameModeTimeOffset 0 0 5
      = ⟨eGetSequenceTimeBeforeSequence, 10⟩)
    ∧ (getSequenceTime 10 20 .hold .hold .eFrameModeTimeOffset 0 0 25
      = ⟨eGetSequenceTimeAfterSequence, 20⟩) :=
  ⟨((c2_before_after_policies 10 20 .eFrameModeTimeOffset 0 0 5 .hold .hold).1
      (by decide)).1,
   ((c2_before_after_policies 10 20 .eFrameModeTimeOffset 0 0 25 .hold .hold).2
      (by decide) (by decide)).1⟩

/-- C4: the time-domain discovery is set-once and idempotent: a non-persistent call
never writes the cached original frame range; the first persistent call sets it to the
scanned range; once the cache is set, any call returns the cached range and leaves the
whole state (scan counter included) unchanged, hence performs no re-scan. -/
theorem c4_time_domain_set_once (st : TimeDomainState) :
    ((getSequenceTimeDomainInternal st false).2.originalFrameRange = st.originalFrameRange)
    ∧ (st.originalFrameRange = none →
        (getSequenceTimeDomainInternal st true).2.originalFrameRange = some st.fsRange
        ∧ (getSequenceTimeDomainInternal st true).1 = st.fsRange)
    ∧ (∀ r, st.originalFrameRange = some r →
        getSequenceTimeDomainInternal st true = (r, st)
        ∧ getSequenceTimeDomainInternal st false = (r, st)) := by
  refine ⟨?_, ?_, ?_⟩
  · cases h : st.originalFrameRange <;> simp [getSequenceTimeDomainInternal, h]
  · intro h
    simp [getSequenceTimeDomainInternal, h]
  · intro r h
    simp [getSequenceTimeDomainInternal, h]

/-- Every depth has a nonzero maximum value. -/
lemma depthMax_ne_zero (d : BitDepthEnum) : depthMax d ≠ 0 := by
  cases d <;> norm_num [depthMax]

/-- Converting between equal depths is the identity. -/
lemma convertValue_same (d : BitDepthEnum) (v : ℚ) : convertValue d d v = v := by
  unfold convertValue toDepth fromDepth
  exact div_mul_cancel₀ v (depthMax_ne_zero d)

/-- C5: applying premultiply then unpremultiply over the render window reproduces the
source within tolerance `1e-6` (in fact exactly) at every pixel whose alpha is
positive, and leaves every color channel at exactly 0 at pixels whose alpha is 0. -/
theorem c5_premult_roundtrip (w : RectI) (src dst1 dst2 : Image) (x y : Int)
    (hw : w.containsB x y = true) :
    (0 < src x y compA →
      ∀ c, |unPremultPixelData w
              (premultPixelData w src ePixelComponentRGBA dst1) ePixelComponentRGBA dst2
              x y c
            - src x y c| ≤ 1 / 1000000)
    ∧ (src x y compA = 0 →
        unPremultPixelData w (premultPixelData w src ePixelComponentRGBA dst1)
          ePixelComponentRGBA dst2 x y compR = 0
        ∧ unPremultPixelData w (premultPixelData w src ePixelComponentRGBA dst1)
          ePixelComponentRGBA dst2 x y compG = 0
        ∧ unPremultPixelData w (premultPixelData w src ePixelComponentRGBA dst1)
          ePixelComponentRGBA dst2 x y compB = 0) := by
  constructor
  · intro ha c
    have ha' : src x y compA ≠ 0 := ne_of_gt ha
    have hcancel : ∀ v : ℚ, v * src x y compA / src x y compA = v := fun v =>
      mul_div_cancel_right₀ v ha'
    cases c <;>
      simp [unPremultPixelData, premultPixelData, hw, PixelComponentEnum.hasComp, ha',
        hcancel]
  · intro ha
    refine ⟨?_, ?_, ?_⟩ <;>
      simp [unPremultPixelData, premultPixelData, hw, PixelComponentEnum.hasComp, ha]

/-- Witness for C5 at a concrete input: a constant pixel of value 2 (alpha 2 > 0)
round trips exactly on the red channel, and a zero-alpha pixel yields 0 red. -/
theorem c5_premult_roundtrip_witness :
    (|unPremultPixelData ⟨0, 0, 1, 1⟩
        (premultPixelData ⟨0, 0, 1, 1⟩ ((fun _ _ _ => 2) : Image) ePixelComponentRGBA
          ((fun _ _ _ => 0) : Image))
        ePixelComponentRGBA ((fun _ _ _ => 0) : Image) 0 0 compR
      - 2| ≤ 1 / 1000000)
    ∧ unPremultPixelData ⟨0, 0, 1, 1⟩
        (premultPixelData ⟨0, 0, 1, 1⟩
          ((fun _ _ c => if c = compA then 0 else 3) : Image) ePixelComponentRGBA
          ((fun _ _ _ => 0) : Image))
        ePixelComponentRGBA ((fun _ _ _ => 0) : Image) 0 0 compR = 0 :=
  ⟨(c5_premult_roundtrip ⟨0, 0, 1, 1⟩ ((fun _ _ _ => 2) : Image)
      ((fun _ _ _ => 0) : Image) ((fun _ _ _ => 0) : Image) 0 0 (by decide)).1
      (by decide) compR,
   ((c5_premult_roundtrip ⟨0, 0, 1, 1⟩
      ((fun _ _ c => if c = compA then 0 else 3) : Image)
      ((fun _ _ _ => 0) : Image) ((fun _ _ _ => 0) : Image) 0 0 (by decide)).2
      (by decide)).1⟩

/-- C7: over the render window `fillWithBlack` writes 0 into every channel the
destination layout carries: an RGBA pixel becomes (0,0,0,0), an RGB pixel becomes
(0,0,0) with its (absent) alpha storage untouched. -/
theorem c7_fill_black (w : RectI) (dst : Image) (x y : Int)
    (hw : w.containsB x y = true) :
    (fillWithBlack w ePixelComponentRGBA dst x y compR = 0
      ∧ fillWithBlack w ePixelComponentRGBA dst x y compG = 0
      ∧ fillWithBlack w ePixelComponentRGBA dst x y compB = 0
      ∧ fillWithBlack w ePixelComponentRGBA dst x y compA = 0)
    ∧ (fillWithBlack w ePixelComponentRGB dst x y compR = 0
      ∧ fillWithBlack w ePixelComponentRGB dst x y compG = 0
      ∧ fillWithBlack w ePixelComponentRGB dst x y compB = 0
      ∧ fillWithBlack w ePixelComponentRGB dst x y compA = dst x y compA) := by
  refine ⟨⟨?_, ?_, ?_, ?_⟩, ?_, ?_, ?_, ?_⟩ <;>
    simp [fillWithBlack, hw, PixelComponentEnum.hasComp]

/-- Witness for C7 at a concrete input: the constant-7 buffer blacked out at the
origin of a 1x1 window. -/
theorem c7_fill_black_witness :
    (fillWithBlack ⟨0, 0, 1, 1⟩ ePixelComponentRGBA ((fun _ _ _ => 7) : Image) 0 0 compA = 0)
    ∧ fillWithBlack ⟨0, 0, 1, 1⟩ ePixelComponentRGB ((fun _ _ _ => 7) : Image) 0 0 compA
      = ((fun _ _ _ => 7) : Image) 0 0 compA :=
  ⟨(c7_fill_black ⟨0, 0, 1, 1⟩ ((fun _ _ _ => 7) : Image) 0 0 (by decide)).1.2.2.2,
   (c7_fill_black ⟨0, 0, 1, 1⟩ ((fun _ _ _ => 7) : Image) 0 0 (by decide)).2.2.2.2⟩

/-- C8: over the render window, the per-pixel copy fills a destination component with
no source counterpart with the maximum representable value for alpha and 0 for color
channels, and converts every mapped component by the linear rescale
`value * (dstMax / srcMax)`. -/
theorem c8_copy_conversion (w : RectI) (srcComps : PixelComponentEnum)
    (srcDepth : BitDepthEnum) (src : Image) (dstComps : PixelComponentEnum)
    (dstDepth : BitDepthEnum) (dst : Image) (x y : Int) (c : PixComp)
    (hw : w.containsB x y = true) (hc : dstComps.hasComp c = true) :
    copyPixelData w srcComps srcDepth src dstComps dstDepth dst x y c
      = if srcComps.hasComp c then src x y c * (depthMax dstDepth / depthMax srcDepth)
        else if c = compA then depthMax dstDepth else 0 := by
  unfold copyPixelData
  rw [hw, hc]
  show copyPixel srcComps srcDepth dstDepth (src x y) c = _
  unfold copyPixel convertValue toDepth fromDepth
  split_ifs
  · rw [div_mul_eq_mul_div, mul_div_assoc]
  · rfl
  · rfl

/-- Witness for C8 at a concrete input: copying an RGB ubyte source of value 51 into
an RGBA float destination yields opaque alpha 1 (unmapped) and 51/255 = 1/5 red
(mapped, rescaled by 1/255). -/
theorem c8_copy_conversion_witness :
    copyPixelData ⟨0, 0, 1, 1⟩ ePixelComponentRGB eBitDepthUByte
        ((fun _ _ _ => 51) : Image) ePixelComponentRGBA eBitDepthFloat
        ((fun _ _ _ => 0) : Image) 0 0 compA = 1
    ∧ copyPixelData ⟨0, 0, 1, 1⟩ ePixelComponentRGB eBitDepthUByte
        ((fun _ _ _ => 51) : Image) ePixelComponentRGBA eBitDepthFloat
        ((fun _ _ _ => 0) : Image) 0 0 compR = 1 / 5 := by
  have hA := c8_copy_conversion ⟨0, 0, 1, 1⟩ ePixelComponentRGB eBitDepthUByte
    ((fun _ _ _ => 51) : Image) ePixelComponentRGBA eBitDepthFloat
    ((fun _ _ _ => 0) : Image) 0 0 compA (by decide) (by decide)
  have hR := c8_copy_conversion ⟨0, 0, 1, 1⟩ ePixelComponentRGB eBitDepthUByte
    ((fun _ _ _ => 51) : Image) ePixelComponentRGBA eBitDepthFloat
    ((fun _ _ _ => 0) : Image) 0 0 compR (by decide) (by decide)
  rw [hA, hR]
  norm_num [PixelComponentEnum.hasComp, depthMax]

/-- C10: in the modelled render tail, the per-format decode hook is invoked with a
float-depth destination buffer (its `pixelData` parameter is typed `float*` in
GenericReader.h:172), and the conversion to the host's requested components and depth
is performed afterwards by the pipeline's copy step. -/
theorem c10_decode_float_depth (decoder : RectI → Image) (fileComps : PixelComponentEnum)
    (renderWindow : RectI) (hostComps : PixelComponentEnum) (hostDepth : BitDepthEnum)
    (dst : Image) :
    (renderDecodeStep decoder fileComps renderWindow hostComps hostDepth dst).2.depth
      = eBitDepthFloat
    ∧ (renderDecodeStep decoder fileComps renderWindow hostComps hostDepth dst).1
      = copyPixelData renderWindow fileComps eBitDepthFloat (decoder renderWindow)
          hostComps hostDepth dst :=
  ⟨rfl, rfl⟩

/-- Left projection of a true boolean conjunction. -/
lemma band_true_left {a b : Bool} (h : (a && b) = true) : a = true := by
  simp only [Bool.and_eq_true] at h
  exact h.1

/-- Right projection of a true boolean conjunction. -/
lemma band_true_right {a b : Bool} (h : (a && b) = true) : b = true := by
  simp only [Bool.and_eq_true] at h
  exact h.2

/-- Halving a nonempty rectangle keeps it nonempty. -/
lemma halveRect_nonEmpty {r : RectI} (h : r.nonEmpty) : (halveRect r).nonEmpty := by
  obtain ⟨hx, hy⟩ := h
  exact ⟨by simp only [halveRect]; omega, by simp only [halveRect]; omega⟩

/-- Every mip level of a nonempty window is nonempty. -/
lemma mipRect_nonEmpty (r : RectI) (h : r.nonEmpty) : ∀ n, (mipRect r n).nonEmpty := by
  intro n
  induction n with
  | zero => exact h
  | succ k ih => exact halveRect_nonEmpty ih

/-- Rectangle membership unfolded to inequalities. -/
lemma containsB_iff (r : RectI) (x y : Int) :
    r.containsB x y = true ↔ r.x1 ≤ x ∧ x < r.x2 ∧ r.y1 ≤ y ∧ y < r.y2 := by
  simp [RectI.containsB, and_assoc]

/-- A pixel of the halved window of a nonempty rectangle has at least one source
sample: its 2x2 block meets the rectangle. -/
lemma boxSamples_ne_nil {r : RectI} {x y : Int} (hr : r.nonEmpty)
    (hm : (halveRect r).containsB x y = true) : boxSamples r x y ≠ [] := by
  obtain ⟨hrx, hry⟩ := hr
  rw [containsB_iff] at hm
  simp only [halveRect] at hm
  have hx : (r.x1 ≤ 2 * x ∧ 2 * x < r.x2) ∨ (r.x1 ≤ 2 * x + 1 ∧ 2 * x + 1 < r.x2) := by
    omega
  have hy : (r.y1 ≤ 2 * y ∧ 2 * y < r.y2) ∨ (r.y1 ≤ 2 * y + 1 ∧ 2 * y + 1 < r.y2) := by
    omega
  have hmem : ∃ p ∈ boxSamples r x y, True := by
    rcases hx with hx | hx <;> rcases hy with hy | hy
    · exact ⟨(2 * x, 2 * y), List.mem_filter.mpr
        ⟨by simp, by rw [containsB_iff]; exact ⟨hx.1, hx.2, hy.1, hy.2⟩⟩, trivial⟩
    · exact ⟨(2 * x, 2 * y + 1), List.mem_filter.mpr
        ⟨by simp, by rw [containsB_iff]; exact ⟨hx.1, hx.2, hy.1, hy.2⟩⟩, trivial⟩
    · exact ⟨(2 * x + 1, 2 * y), List.mem_filter.mpr
        ⟨by simp, by rw [containsB_iff]; exact ⟨hx.1, hx.2, hy.1, hy.2⟩⟩, trivial⟩
    · exact ⟨(2 * x + 1, 2 * y + 1), List.mem_filter.mpr
        ⟨by simp, by rw [containsB_iff]; exact ⟨hx.1, hx.2, hy.1, hy.2⟩⟩, trivial⟩
  obtain ⟨p, hp, _⟩ := hmem
  exact List.ne_nil_of_mem hp

/-- Every sample of a clipped 2x2 block lies inside the clipping rectangle. -/
lemma mem_boxSamples_contains {r : RectI} {x y : Int} {p : Int × Int}
    (hp : p ∈ boxSamples r x y) : r.containsB p.1 p.2 = true := by
  unfold boxSamples at hp
  have h := List.of_mem_filter hp
  simpa using h

/-- The average over a nonempty sample block of a source that is uniform on the
rectangle is that uniform value. -/
lemma boxDown_const {src : Image} {r : RectI} {col : PixComp → ℚ}
    (hsrc : ∀ x y c, r.containsB x y = true → src x y c = col c)
    {x y : Int} (hne : boxSamples r x y ≠ []) (c : PixComp) :
    boxDown src r x y c = col c := by
  have hlen : (boxSamples r x y).length ≠ 0 := by
    simpa [List.length_eq_zero] using hne
  show (if (boxSamples r x y).length = 0 then (0 : ℚ)
      else ((boxSamples r x y).map (fun p => src p.1 p.2 c)).sum
        / ((boxSamples r x y).length : ℚ)) = col c
  rw [if_neg hlen]
  have hvals : ∀ q ∈ (boxSamples r x y).map (fun p => src p.1 p.2 c), q = col c := by
    intro q hq
    obtain ⟨p, hp, hpq⟩ := List.mem_map.mp hq
    rw [← hpq]
    exact hsrc p.1 p.2 c (mem_boxSamples_contains hp)
  rw [List.sum_eq_card_nsmul _ _ hvals, List.length_map, nsmul_eq_mul]
  exact mul_div_cancel_left₀ _ (by exact_mod_cast hlen)

/-- Flat-field invariance of the mip chain: a source uniform on the original window
stays uniform at every level on that level's window. -/
lemma mipImage_const {src : Image} {r : RectI} {col : PixComp → ℚ}
    (hsrc : ∀ x y c, r.containsB x y = true → src x y c = col c) (hr : r.nonEmpty) :
    ∀ n x y c, (mipRect r n).containsB x y = true → mipImage src r n x y c = col c := by
  intro n
  induction n with
  | zero => exact hsrc
  | succ k ih =>
    intro x y c h
    have hk : (mipRect r k).nonEmpty := mipRect_nonEmpty r hr k
    have hne : boxSamples (mipRect r k) x y ≠ [] := boxSamples_ne_nil hk h
    exact boxDown_const (fun a b ch hab => ih a b ch hab) hne c

/-- A box-filter step reads the previous level only inside the previous level's
window: sources agreeing there downsample identically. -/
lemma boxDown_congr {m1 m2 : Image} {r : RectI}
    (h : ∀ x y c, r.containsB x y = true → m1 x y c = m2 x y c) :
    ∀ x y c, boxDown m1 r x y c = boxDown m2 r x y c := by
  intro x y c
  have hmap : (boxSamples r x y).map (fun p => m1 p.1 p.2 c)
      = (boxSamples r x y).map (fun p => m2 p.1 p.2 c) := by
    refine List.map_congr_left ?_
    intro p hp
    exact h p.1 p.2 c (mem_boxSamples_contains hp)
  show (if (boxSamples r x y).length = 0 then (0 : ℚ)
      else ((boxSamples r x y).map (fun p => m1 p.1 p.2 c)).sum
        / ((boxSamples r x y).length : ℚ))
    = (if (boxSamples r x y).length = 0 then (0 : ℚ)
      else ((boxSamples r x y).map (fun p => m2 p.1 p.2 c)).sum
        / ((boxSamples r x y).length : ℚ))
  rw [hmap]

/-- The whole mip chain reads the source only inside the original render window. -/
lemma mipImage_congr {src1 src2 : Image} {r : RectI}
    (h : ∀ x y c, r.containsB x y = true → src1 x y c = src2 x y c) :
    ∀ n x y c, (mipRect r n).containsB x y = true →
      mipImage src1 r n x y c = mipImage src2 r n x y c := by
  intro n
  induction n with
  | zero => exact h
  | succ k ih =>
    intro x y c _
    exact boxDown_congr (fun a b ch hab => ih a b ch hab) x y c

/-- A hold-nearest step always yields a candidate. -/
lemma nearestStep_isSome (t : Int) (acc : Option Int) (i : Int) :
    (nearestStep t acc i).isSome := by
  cases acc with
  | none => rfl
  | some j =>
    show (if betterCandidate t i j = true then some i else some j).isSome = true
    split <;> rfl

/-- From a candidate, the hold-nearest fold keeps a candidate. -/
lemma nearestFold_isSome (t : Int) (l : List Int) :
    ∀ acc : Option Int, acc.isSome → (l.foldl (nearestStep t) acc).isSome := by
  induction l with
  | nil => intro acc h; simpa using h
  | cons x xs ih =>
    intro acc _
    rw [List.foldl_cons]
    exact ih (nearestStep t acc x) (nearestStep_isSome t acc x)

/-- The better-candidate test implies the distance does not grow. -/
lemma betterCandidate_le (t i j : Int) (h : betterCandidate t i j = true) :
    |i - t| ≤ |j - t| := by
  simp only [betterCandidate, Bool.or_eq_true, Bool.and_eq_true, decide_eq_true_eq] at h
  rcases h with h | ⟨h, _⟩
  · exact le_of_lt h
  · exact le_of_eq h

/-- A failed better-candidate test implies the kept candidate is at least as close. -/
lemma betterCandidate_not_le (t i j : Int) (h : ¬ betterCandidate t i j = true) :
    |j - t| ≤ |i - t| := by
  simp only [betterCandidate, Bool.or_eq_true, Bool.and_eq_true, decide_eq_true_eq] at h
  push_neg at h
  exact h.1

/-- Full correctness of the hold-nearest fold: a produced candidate is the accumulator
or a scanned frame, is at least as close to `t` as every scanned frame, and at least
as close as the starting accumulator. -/
lemma nearestFold_spec (t : Int) (l : List Int) :
    ∀ (acc : Option Int) (i : Int), l.foldl (nearestStep t) acc = some i →
      (acc = some i ∨ i ∈ l)
      ∧ (∀ j ∈ l, |i - t| ≤ |j - t|)
      ∧ (∀ j, acc = some j → |i - t| ≤ |j - t|) := by
  induction l with
  | nil =>
    intro acc i h
    simp only [List.foldl_nil] at h
    refine ⟨Or.inl h, by simp, ?_⟩
    intro j hj
    rw [h] at hj
    cases hj
    exact le_refl _
  | cons x xs ih =>
    intro acc i h
    rw [List.foldl_cons] at h
    obtain ⟨hmem, hxs, hstep⟩ := ih (nearestStep t acc x) i h
    cases acc with
    | none =>
      have hx : |i - t| ≤ |x - t| := hstep x rfl
      refine ⟨?_, ?_, ?_⟩
      · rcases hmem with hm | hm
        · exact Or.inr (by simp only [nearestStep] at hm; cases hm; exact List.mem_cons_self x xs)
        · exact Or.inr (List.mem_cons_of_mem x hm)
      · intro j hj
        rcases List.mem_cons.mp hj with hj | hj
        · exact hj ▸ hx
        · exact hxs j hj
      · intro j hj
        cases hj
    | some a =>
      by_cases hb : betterCandidate t x a = true
      · have hstepx : nearestStep t (some a) x = some x := by simp [nearestStep, hb]
        rw [hstepx] at hmem hstep
        have hx : |i - t| ≤ |x - t| := hstep x rfl
        have ha : |i - t| ≤ |a - t| := le_trans hx (betterCandidate_le t x a hb)
        refine ⟨?_, ?_, ?_⟩
        · rcases hmem with hm | hm
          · cases hm; exact Or.inr (List.mem_cons_self x xs)
          · exact Or.inr (List.mem_cons_of_mem x hm)
        · intro j hj
          rcases List.mem_cons.mp hj with hj | hj
          · exact hj ▸ hx
          · exact hxs j hj
        · intro j hj
          cases hj
          exact ha
      · have hstepa : nearestStep t (some a) x = some a := by simp [nearestStep, hb]
        rw [hstepa] at hmem hstep
        have ha : |i - t| ≤ |a - t| := hstep a rfl
        have hx : |i - t| ≤ |x - t| := le_trans ha (betterCandidate_not_le t x a hb)
        refine ⟨?_, ?_, ?_⟩
        · rcases hmem with hm | hm
          · cases hm; exact Or.inl rfl
          · exact Or.inr (List.mem_cons_of_mem x hm)
        · intro j hj
          rcases List.mem_cons.mp hj with hj | hj
          · exact hj ▸ hx
          · exact hxs j hj
        · intro j hj
          cases hj
          exact ha

/-- Membership in the existing-frames list characterised. -/
lemma mem_existingFramesIn (files : List (Int × String)) (firstFrame lastFrame i : Int) :
    i ∈ existingFramesIn files firstFrame lastFrame ↔
      (∃ fn, (i, fn) ∈ files) ∧ firstFrame ≤ i ∧ i ≤ lastFrame := by
  simp only [existingFramesIn, List.mem_filter, List.mem_map, Bool.and_eq_true,
    decide_eq_true_eq]
  constructor
  · rintro ⟨⟨p, hp, hpi⟩, h1, h2⟩
    exact ⟨⟨p.2, by rw [← hpi]; exact hp⟩, h1, h2⟩
  · rintro ⟨⟨fn, hfn⟩, h1, h2⟩
    exact ⟨⟨(i, fn), hfn, rfl⟩, h1, h2⟩

/-- A frame present in the mapping is found by `lookupFrame`. -/
lemma lookupFrame_isSome_of_mem (files : List (Int × String)) (i : Int) (fn : String)
    (h : (i, fn) ∈ files) : (lookupFrame files i).isSome := by
  unfold lookupFrame
  have hfind : (List.find? (fun p => p.1 == i) files).isSome := by
    rw [List.find?_isSome]
    exact ⟨(i, fn), h, by simp⟩
  obtain ⟨p, hp⟩ := Option.isSome_iff_exists.mp hfind
  rw [hp]
  rfl

/-- C3: `getFilenameAtSequenceTime` always yields one of the four outcomes (failed,
full-res, proxy, black); and when no file exists at the exact requested time the
missing-frame policy decides: error fails, black yields the black outcome, and
hold-nearest-available resolves a nearest existing frame index within
`[firstFrame, lastFrame]` (a frame at least as close to `t` as every other existing
in-range frame, and guaranteed to exist whenever some in-range frame exists). -/
theorem c3_filename_resolution_outcomes (files proxyFiles : List (Int × String))
    (useProxy : Bool) (missing : MissingFrameEnum) (firstFrame lastFrame t : Int) :
    ((getFilenameAtSequenceTime files proxyFiles useProxy missing firstFrame lastFrame t).1
        = eGetFileNameFailed
      ∨ (getFilenameAtSequenceTime files proxyFiles useProxy missing firstFrame lastFrame t).1
        = eGetFileNameReturnedFullRes
      ∨ (getFilenameAtSequenceTime files proxyFiles useProxy missing firstFrame lastFrame t).1
        = eGetFileNameReturnedProxy
      ∨ (getFilenameAtSequenceTime files proxyFiles useProxy missing firstFrame lastFrame t).1
        = eGetFileNameBlack)
    ∧ (lookupFrame files t = none →
        (missing = eMissingFrameError →
          getFilenameAtSequenceTime files proxyFiles useProxy missing firstFrame lastFrame t
            = (eGetFileNameFailed, none))
        ∧ (missing = eMissingFrameBlack →
          getFilenameAtSequenceTime files proxyFiles useProxy missing firstFrame lastFrame t
            = (eGetFileNameBlack, none))
        ∧ (missing = eMissingFrameNearest →
            (existingFramesIn files firstFrame lastFrame ≠ [] →
              (nearestFrame files firstFrame lastFrame t).isSome)
            ∧ ∀ i, nearestFrame files firstFrame lastFrame t = some i →
                getFilenameAtSequenceTime files proxyFiles useProxy missing firstFrame lastFrame t
                  = resolveAtFrame files proxyFiles useProxy i
                ∧ firstFrame ≤ i ∧ i ≤ lastFrame
                ∧ (lookupFrame files i).isSome
                ∧ ∀ j ∈ existingFramesIn files firstFrame lastFrame, |i - t| ≤ |j - t|)) := by
  constructor
  · cases h : (getFilenameAtSequenceTime files proxyFiles useProxy missing
        firstFrame lastFrame t).1 <;> simp
  · intro hnone
    refine ⟨?_, ?_, ?_⟩
    · intro hm; subst hm; simp [getFilenameAtSequenceTime, hnone]
    · intro hm; subst hm; simp [getFilenameAtSequenceTime, hnone]
    · intro hm; subst hm
      constructor
      · intro hne
        obtain ⟨x, xs, hl⟩ := List.exists_cons_of_ne_nil hne
        unfold nearestFrame
        rw [hl, List.foldl_cons]
        exact nearestFold_isSome t xs (nearestStep t none x) (nearestStep_isSome t none x)
      · intro i hi
        obtain ⟨hmem, hmin, _⟩ := nearestFold_spec t
          (existingFramesIn files firstFrame lastFrame) none i hi
        have hin : i ∈ existingFramesIn files firstFrame lastFrame := by
          rcases hmem with hm | hm
          · cases hm
          · exact hm
        obtain ⟨⟨fn, hfn⟩, h1, h2⟩ := (mem_existingFramesIn files firstFrame lastFrame i).mp hin
        refine ⟨by simp [getFilenameAtSequenceTime, hnone, hi], h1, h2,
          lookupFrame_isSome_of_mem files i fn hfn, hmin⟩

/-- Witness for C3 at a concrete input: files at frames 10 and 20, frame 14 missing,
hold-nearest policy resolves frame 10 (distance 4, against 6 for frame 20). -/
theorem c3_filename_resolution_outcomes_witness :
    getFilenameAtSequenceTime [((10 : Int), "f10"), (20, "f20")] [] false
        eMissingFrameNearest 10 20 14
      = resolveAtFrame [((10 : Int), "f10"), (20, "f20")] [] false 10
    ∧ (10 : Int) ≤ 10 ∧ (10 : Int) ≤ 20
    ∧ (lookupFrame [((10 : Int), "f10"), (20, "f20")] 10).isSome
    ∧ ∀ j ∈ existingFramesIn [((10 : Int), "f10"), (20, "f20")] 10 20,
        |(10 : Int) - 14| ≤ |j - 14| :=
  ((c3_filename_resolution_outcomes [((10 : Int), "f10"), (20, "f20")] [] false
      eMissingFrameNearest 10 20 14).2 rfl).2.2 rfl |>.2 10 rfl

/-- C6: `scalePixelData` with `levels = 0` is exactly the identity copy over the
render window (`copyPixelData` at equal components and depth), and on a source of
uniform color the image at every downsample level is uniformly that color over that
level's window (flat-field invariance of the 2x box filter). -/
theorem c6_scale_identity_and_flatfield :
    (∀ (w : RectI) (comps : PixelComponentEnum) (d : BitDepthEnum) (src dst : Image)
        (x y : Int) (c : PixComp),
      scalePixelData w 0 src comps dst x y c
        = copyPixelData w comps d src comps d dst x y c)
    ∧ ∀ (w : RectI) (src : Image) (col : PixComp → ℚ),
        (∀ x y c, w.containsB x y = true → src x y c = col c) → w.nonEmpty →
        ∀ n, (mipRect w n).nonEmpty
          ∧ ∀ x y c, (mipRect w n).containsB x y = true →
              mipImage src w n x y c = col c := by
  constructor
  · intro w comps d src dst x y c
    show (if w.containsB x y && comps.hasComp c then src x y c else dst x y c)
      = (if w.containsB x y && comps.hasComp c then copyPixel comps d d (src x y) c
        else dst x y c)
    by_cases h : (w.containsB x y && comps.hasComp c) = true
    · rw [if_pos h, if_pos h]
      have hc : comps.hasComp c = true := (band_true_right h)
      unfold copyPixel
      rw [if_pos hc, convertValue_same]
    · rw [if_neg h, if_neg h]
  · intro w src col hsrc hne n
    exact ⟨mipRect_nonEmpty w hne n, fun x y c h => mipImage_const hsrc hne n x y c h⟩

/-- Witness for C6 at a concrete input: one downsample level of the constant-3 buffer
over the window `[0,2) x [0,2)` is 3 at the origin of the halved (nonempty) window,
and the 0-level scale of that buffer equals its identity copy at the origin. -/
theorem c6_scale_identity_and_flatfield_witness :
    (scalePixelData ⟨0, 0, 2, 2⟩ 0 ((fun _ _ _ => 3) : Image) ePixelComponentRGBA
        ((fun _ _ _ => 0) : Image) 0 0 compR
      = copyPixelData ⟨0, 0, 2, 2⟩ ePixelComponentRGBA eBitDepthFloat
        ((fun _ _ _ => 3) : Image) ePixelComponentRGBA eBitDepthFloat
        ((fun _ _ _ => 0) : Image) 0 0 compR)
    ∧ (mipRect ⟨0, 0, 2, 2⟩ 1).nonEmpty
    ∧ mipImage ((fun _ _ _ => 3) : Image) ⟨0, 0, 2, 2⟩ 1 0 0 compR = 3 :=
  ⟨c6_scale_identity_and_flatfield.1 ⟨0, 0, 2, 2⟩ ePixelComponentRGBA eBitDepthFloat
      ((fun _ _ _ => 3) : Image) ((fun _ _ _ => 0) : Image) 0 0 compR,
   (c6_scale_identity_and_flatfield.2 ⟨0, 0, 2, 2⟩ ((fun _ _ _ => 3) : Image)
      (fun _ => 3) (fun _ _ _ _ => rfl) (by decide) 1).1,
   (c6_scale_identity_and_flatfield.2 ⟨0, 0, 2, 2⟩ ((fun _ _ _ => 3) : Image)
      (fun _ => 3) (fun _ _ _ _ => rfl) (by decide) 1).2 0 0 compR (by decide)⟩

/-- C9: every pixel-pipeline operation confines its effect to the render window: at
any coordinate outside the window the destination value is returned unchanged (for
`scalePixelData`, outside the final level's window), and two sources agreeing on the
window (for `scalePixelData`, on the original render window it reads) produce
identical results everywhere. -/
theorem c9_render_window_locality (w : RectI) (srcComps dstComps : PixelComponentEnum)
    (srcDepth dstDepth : BitDepthEnum) (src1 src2 dst : Image) (levels : Nat) :
    ((∀ x y c, w.containsB x y = false →
        copyPixelData w srcComps srcDepth src1 dstComps dstDepth dst x y c = dst x y c
        ∧ fillWithBlack w dstComps dst x y c = dst x y c
        ∧ premultPixelData w src1 dstComps dst x y c = dst x y c
        ∧ unPremultPixelData w src1 dstComps dst x y c = dst x y c)
      ∧ ∀ x y c, (mipRect w levels).containsB x y = false →
          scalePixelData w levels src1 dstComps dst x y c = dst x y c)
    ∧ ((∀ x y c, w.containsB x y = true → src1 x y c = src2 x y c) →
        ∀ x y c,
          copyPixelData w srcComps srcDepth src1 dstComps dstDepth dst x y c
            = copyPixelData w srcComps srcDepth src2 dstComps dstDepth dst x y c
          ∧ premultPixelData w src1 dstComps dst x y c
            = premultPixelData w src2 dstComps dst x y c
          ∧ unPremultPixelData w src1 dstComps dst x y c
            = unPremultPixelData w src2 dstComps dst x y c
          ∧ scalePixelData w levels src1 dstComps dst x y c
            = scalePixelData w levels src2 dstComps dst x y c) := by
  constructor
  · constructor
    · intro x y c h
      refine ⟨?_, ?_, ?_, ?_⟩ <;>
        simp [copyPixelData, fillWithBlack, premultPixelData, unPremultPixelData, h]
    · intro x y c h
      simp [scalePixelData, h]
  · intro hagree x y c
    have hcopy : copyPixelData w srcComps srcDepth src1 dstComps dstDepth dst x y c
        = copyPixelData w srcComps srcDepth src2 dstComps dstDepth dst x y c := by
      unfold copyPixelData
      by_cases hg : (w.containsB x y && dstComps.hasComp c) = true
      · rw [if_pos hg, if_pos hg]
        have hw : w.containsB x y = true := (band_true_left hg)
        unfold copyPixel
        by_cases hs : srcComps.hasComp c = true
        · rw [if_pos hs, if_pos hs, hagree x y c hw]
        · rw [if_neg hs, if_neg hs]
      · rw [if_neg hg, if_neg hg]
    have hpre : premultPixelData w src1 dstComps dst x y c
        = premultPixelData w src2 dstComps dst x y c := by
      unfold premultPixelData
      by_cases hg : (w.containsB x y && dstComps.hasComp c) = true
      · rw [if_pos hg, if_pos hg]
        have hw : w.containsB x y = true := (band_true_left hg)
        rw [hagree x y c hw, hagree x y compA hw]
      · rw [if_neg hg, if_neg hg]
    have hunpre : unPremultPixelData w src1 dstComps dst x y c
        = unPremultPixelData w src2 dstComps dst x y c := by
      unfold unPremultPixelData
      by_cases hg : (w.containsB x y && dstComps.hasComp c) = true
      · rw [if_pos hg, if_pos hg]
        have hw : w.containsB x y = true := (band_true_left hg)
        rw [hagree x y c hw, hagree x y compA hw]
      · rw [if_neg hg, if_neg hg]
    have hscale : scalePixelData w levels src1 dstComps dst x y c
        = scalePixelData w levels src2 dstComps dst x y c := by
      unfold scalePixelData
      by_cases hg : ((mipRect w levels).containsB x y && dstComps.hasComp c) = true
      · rw [if_pos hg, if_pos hg]
        exact mipImage_congr hagree levels x y c (band_true_left hg)
      · rw [if_neg hg, if_neg hg]
    exact ⟨hcopy, hpre, hunpre, hscale⟩

/-- Witness for C9 at a concrete input: at the out-of-window coordinate (5,5) the
constant-7 destination survives a black fill over `[0,1) x [0,1)` untouched, and the
copy of two syntactically identical sources agrees at the origin. -/
theorem c9_render_window_locality_witness :
    fillWithBlack ⟨0, 0, 1, 1⟩ ePixelComponentRGBA ((fun _ _ _ => 7) : Image) 5 5 compR
      = ((fun _ _ _ => 7) : Image) 5 5 compR
    ∧ copyPixelData ⟨0, 0, 1, 1⟩ ePixelComponentRGBA eBitDepthFloat
        ((fun _ _ _ => 2) : Image) ePixelComponentRGBA eBitDepthFloat
        ((fun _ _ _ => 0) : Image) 0 0 compR
      = copyPixelData ⟨0, 0, 1, 1⟩ ePixelComponentRGBA eBitDepthFloat
        ((fun _ _ _ => 2) : Image) ePixelComponentRGBA eBitDepthFloat
        ((fun _ _ _ => 0) : Image) 0 0 compR :=
  ⟨((c9_render_window_locality ⟨0, 0, 1, 1⟩ ePixelComponentRGBA ePixelComponentRGBA
      eBitDepthFloat eBitDepthFloat ((fun _ _ _ => 2) : Image) ((fun _ _ _ => 2) : Image)
      ((fun _ _ _ => 7) : Image) 0).1.1 5 5 compR (by decide)).2.1,
   ((c9_render_window_locality ⟨0, 0, 1, 1⟩ ePixelComponentRGBA ePixelComponentRGBA
      eBitDepthFloat eBitDepthFloat ((fun _ _ _ => 2) : Image) ((fun _ _ _ => 2) : Image)
      ((fun _ _ _ => 0) : Image) 0).2 (fun _ _ _ _ => rfl) 0 0 compR).1⟩

/-- Witness for C4 at a concrete state, chaining two persistent calls: the first sets
the cache from the scanned range, the second returns the same range with the state
(and scan counter) untouched. -/
theorem c4_time_domain_set_once_witness :
    ((getSequenceTimeDomainInternal ⟨(3, 9), none, 0⟩ true).2.originalFrameRange = some (3, 9))
    ∧ (getSequenceTimeDomainInternal ⟨(3, 9), some (3, 9), 1⟩ true
        = ((3, 9), ⟨(3, 9), some (3, 9), 1⟩))
    ∧ ((getSequenceTimeDomainInternal ⟨(3, 9), none, 0⟩ false).2.originalFrameRange = none) :=
  ⟨((c4_time_domain_set_once ⟨(3, 9), none, 0⟩).2.1 rfl).1,
   ((c4_time_domain_set_once ⟨(3, 9), some (3, 9), 1⟩).2.2 (3, 9) rfl).1,
   (c4_time_domain_set_once ⟨(3, 9), none, 0⟩).1⟩

end GenericReader
